import Mathlib

/-!
Verification of the AutoDub Pro subtitle timeline engine.

Shallow embedding of `autodub_pro/core/subtitle.py` (the `SubtitleProcessor`
class) and of the pure timeline logic of
`autodub_pro/ui/subtitle_editor.py` (the `SubtitleEditorWidget` methods that
transform the subtitle list).  Python floats are modelled as exact rationals,
`pysrt.SubRipTime` is modelled by its millisecond ordinal (which is how the
pysrt library stores it: the `hours`/`minutes`/`seconds`/`milliseconds`
attributes are derived views of the ordinal), and `pysrt.SubRipItem` by a
record of index, start, end and text.
-/

namespace AutodubPro

/-- Model of `pysrt.SubRipTime`: the library stores a single millisecond
ordinal; hours, minutes, seconds and milliseconds are derived from it. -/
structure SubRipTime where
  ordinal : ℕ
deriving DecidableEq, Repr

/-- Derived `hours` attribute of a `SubRipTime`. -/
def SubRipTime.hours (t : SubRipTime) : ℕ := t.ordinal / 3600000

/-- Derived `minutes` attribute of a `SubRipTime`. -/
def SubRipTime.minutes (t : SubRipTime) : ℕ := t.ordinal % 3600000 / 60000

/-- Derived `seconds` attribute of a `SubRipTime`. -/
def SubRipTime.seconds (t : SubRipTime) : ℕ := t.ordinal % 60000 / 1000

/-- Derived `milliseconds` attribute of a `SubRipTime`. -/
def SubRipTime.milliseconds (t : SubRipTime) : ℕ := t.ordinal % 1000

/-- Model of the `pysrt.SubRipTime(hours, minutes, seconds, milliseconds)`
constructor, which normalises its arguments into the ordinal. -/
def mkTime (h m s ms : ℕ) : SubRipTime :=
  ⟨h * 3600000 + m * 60000 + s * 1000 + ms⟩

/-- Model of `pysrt.SubRipItem`.  The `end` attribute of the Python object is
called `stop` here because `end` is a Lean keyword. -/
structure SubRipItem where
  index : ℕ
  start : SubRipTime
  stop : SubRipTime
  text : String
deriving DecidableEq, Repr

instance : Inhabited SubRipItem := ⟨⟨0, ⟨0⟩, ⟨0⟩, ""⟩⟩

/-- One AWS transcript item as consumed by `_group_transcript_items`.
The Python code reads `item['type']`, `float(item['start_time'])`,
`float(item['end_time'])` and `item['alternatives'][0]['content']`; the
dictionary accesses are flattened into record fields. -/
structure TranscriptItem where
  type : String
  start_time : ℚ
  end_time : ℚ
  content : String
deriving DecidableEq, Repr

/-- One grouped speech segment: the dictionaries with keys `start_time`,
`end_time`, `text` built by `_group_transcript_items`. -/
structure Segment where
  start_time : ℚ
  end_time : ℚ
  text : String
deriving DecidableEq, Repr

/-- One iteration of the loop body of `_group_transcript_items`:
state is (finished segments, open accumulator). -/
def groupStep (st : List Segment × Option Segment) (item : TranscriptItem) :
    List Segment × Option Segment :=
  if item.type ≠ "pronunciation" then st
  else
    match st.2 with
    | none => (st.1, some ⟨item.start_time, item.end_time, item.content⟩)
    | some cur =>
      if item.start_time - cur.end_time < 0.5 then
        (st.1, some ⟨cur.start_time, item.end_time, cur.text ++ " " ++ item.content⟩)
      else
        (st.1 ++ [cur], some ⟨item.start_time, item.end_time, item.content⟩)

/-- Appending the final open accumulator, if any (the epilogue of
`_group_transcript_items`). -/
def groupFinish (st : List Segment × Option Segment) : List Segment :=
  match st.2 with
  | none => st.1
  | some cur => st.1 ++ [cur]

/-- `SubtitleProcessor._group_transcript_items`. -/
def group_transcript_items (items : List TranscriptItem) : List Segment :=
  groupFinish (items.foldl groupStep ([], none))

/-- Spec-modelled grouping walk: given an open accumulator and the remaining
kept tokens, a token with gap strictly below 0.5 s extends the accumulator,
otherwise the accumulator is emitted and the token opens a fresh one; the
final accumulator is emitted last. -/
def specGroupWalk (acc : Segment) : List TranscriptItem → List Segment
  | [] => [acc]
  | t :: ts =>
    if t.start_time - acc.end_time < 0.5 then
      specGroupWalk ⟨acc.start_time, t.end_time, acc.text ++ " " ++ t.content⟩ ts
    else
      acc :: specGroupWalk ⟨t.start_time, t.end_time, t.content⟩ ts

/-- Spec-modelled segmentation: discard tokens whose type is not
`"pronunciation"`; the first kept token opens the accumulator. -/
def specSegmentation (items : List TranscriptItem) : List Segment :=
  match items.filter (fun t => t.type == "pronunciation") with
  | [] => []
  | t :: ts => specGroupWalk ⟨t.start_time, t.end_time, t.content⟩ ts

/-- `SubtitleProcessor._seconds_to_subrip_time`: hours and minutes come from
`divmod(td.seconds, 3600)` and `divmod(remainder, 60)`; milliseconds from
`int(td.microseconds / 1000)`. -/
def seconds_to_subrip_time (q : ℚ) : SubRipTime :=
  mkTime ((⌊q⌋ % 86400) / 3600).toNat
    ((⌊q⌋ % 86400 % 3600) / 60).toNat
    (⌊q⌋ % 86400 % 3600 % 60).toNat
    (⌊(q - (⌊q⌋ : ℚ)) * 1000000⌋ / 1000).toNat

/-- `SubtitleProcessor.crop_subtitle`. -/
def crop_subtitle (subtitle : SubRipItem) (is_end : Bool) (position : Option ℚ) :
    SubRipItem :=
  match position with
  | none => subtitle
  | some p =>
    if is_end then { subtitle with stop := seconds_to_subrip_time p }
    else { subtitle with start := seconds_to_subrip_time p }

/-- The bounds check and split of `SubtitleProcessor.split_subtitle`, acting
on the converted position ordinal (milliseconds). -/
def split_subtitle_at (subtitle : SubRipItem) (positionOrdinal : ℕ) :
    SubRipItem × Option SubRipItem :=
  if ¬ (subtitle.start.ordinal ≤ positionOrdinal ∧
        positionOrdinal ≤ subtitle.stop.ordinal) then
    (subtitle, none)
  else
    ({ subtitle with stop := ⟨positionOrdinal⟩ },
      some { subtitle with start := ⟨positionOrdinal⟩ })

/-- `SubtitleProcessor.split_subtitle`: converts the position (seconds) with
`_seconds_to_subrip_time` and splits at the resulting ordinal. -/
def split_subtitle (subtitle : SubRipItem) (position : ℚ) :
    SubRipItem × Option SubRipItem :=
  split_subtitle_at subtitle (seconds_to_subrip_time position).ordinal

/-- `SubtitleProcessor.set_subtitle_timing`. -/
def set_subtitle_timing (subtitle : SubRipItem) (start? stop? : Option ℚ) :
    SubRipItem :=
  let s1 :=
    match start? with
    | none => subtitle
    | some s => { subtitle with start := seconds_to_subrip_time s }
  match stop? with
  | none => s1
  | some e => { s1 with stop := seconds_to_subrip_time e }

/-- Insertion of an integer into a sorted list; used to model Python's
built-in `sorted` (ascending) on the index list. -/
def insertSorted (x : ℤ) : List ℤ → List ℤ
  | [] => [x]
  | y :: ys => if x ≤ y then x :: y :: ys else y :: insertSorted x ys

/-- Model of Python `sorted` on a list of integers (insertion sort; on
integers any ascending sort produces the same list). -/
def pySorted (l : List ℤ) : List ℤ := l.foldr insertSorted []

/-- `SubtitleProcessor.merge_subtitles`: guard `len(indices) < 2`, sort the
indices, keep `subtitles[i]` for the in-range ones, and merge first..last;
the removed indices are the sorted tail. -/
def merge_subtitles (subtitles : List SubRipItem) (indices : List ℤ) :
    Option SubRipItem × List ℤ :=
  if indices.length < 2 then (none, [])
  else
    let sorted := pySorted indices
    let to_merge := sorted.filterMap (fun i =>
      if 0 ≤ i ∧ i < (subtitles.length : ℤ) then subtitles.get? i.toNat else none)
    match to_merge with
    | [] => (none, [])
    | first :: rest =>
      (some { first with
          stop := ((first :: rest).getLastD first).stop,
          text := String.intercalate " " ((first :: rest).map SubRipItem.text) },
        sorted.drop 1)

/-- A typed parse failure, as the spec's `ParseError`. -/
structure ParseError where
  message : String
deriving DecidableEq, Repr

/-- `SubtitleProcessor.load_srt`: the call `pysrt.open(file_path)` is
abstracted by its outcome `parseResult` (a parsed subtitle list, or a raised
parse exception).  The source wraps the call in `try/except`, prints the
error, and returns the empty list on any exception. -/
def load_srt (parseResult : Except ParseError (List SubRipItem)) :
    List SubRipItem :=
  match parseResult with
  | Except.ok subs => subs
  | Except.error _ => []

/-- The decimal digit character for `d` (`'0'`..`'9'` for `d < 10`). -/
def digitChar (d : ℕ) : Char := Char.ofNat (48 + d)

/-- Reading one decimal digit character. -/
def charToDigit (c : Char) : Option ℕ :=
  if 48 ≤ c.toNat ∧ c.toNat ≤ 57 then some (c.toNat - 48) else none

/-- Reading a string of decimal digit characters, most significant first. -/
def parseDigits : List Char → Option (List ℕ)
  | [] => some []
  | c :: cs =>
    match charToDigit c, parseDigits cs with
    | some d, some ds => some (d :: ds)
    | _, _ => none

/-- Model of Python `int(s)` on a digit string: fails on the empty string or
any non-digit character, otherwise the base-10 value (leading zeros allowed). -/
def pyInt (cs : List Char) : Option ℕ :=
  match parseDigits cs with
  | none => none
  | some ds => if ds.isEmpty then none else some (Nat.ofDigits 10 ds.reverse)

/-- Decimal digit list of `n`, most significant first (`[0]` for zero),
as produced by Python `str(n)`. -/
def natDigits (n : ℕ) : List ℕ :=
  if n = 0 then [0] else (Nat.digits 10 n).reverse

/-- Decimal character rendering of `n`. -/
def natChars (n : ℕ) : List Char := (natDigits n).map digitChar

/-- Left zero-padding to width `w`, as in Python's `f"{n:0wd}"`. -/
def padZeros (w : ℕ) (cs : List Char) : List Char :=
  List.replicate (w - cs.length) '0' ++ cs

/-- The character list of
`f"{h:02d}:{m:02d}:{s:02d}.{ms:03d}"`. -/
def format_timestamp_chars (h m s ms : ℕ) : List Char :=
  padZeros 2 (natChars h) ++ ':' ::
    (padZeros 2 (natChars m) ++ ':' ::
      (padZeros 2 (natChars s) ++ '.' :: padZeros 3 (natChars ms)))

/-- `SubtitleEditorWidget.format_timestamp` (also
`SubtitleProcessor.format_timestamp`, which is textually identical). -/
def format_timestamp (t : SubRipTime) : String :=
  ⟨format_timestamp_chars t.hours t.minutes t.seconds t.milliseconds⟩

/-- The same rendering with `','` as the millisecond separator (the SRT
on-disk variant the parser must tolerate). -/
def format_timestamp_comma_chars (h m s ms : ℕ) : List Char :=
  padZeros 2 (natChars h) ++ ':' ::
    (padZeros 2 (natChars m) ++ ':' ::
      (padZeros 2 (natChars s) ++ ',' :: padZeros 3 (natChars ms)))

/-- Python `timestamp_str.replace(',', '.')` (a single-character pattern, so
a character map). -/
def pyReplaceCommaDot (cs : List Char) : List Char :=
  cs.map (fun c => if c = ',' then '.' else c)

/-- Python `str.split(sep)` for a single-character separator: all pieces are
kept, including empty ones. -/
def splitOnChar (sep : Char) : List Char → List (List Char)
  | [] => [[]]
  | c :: rest =>
    if c = sep then [] :: splitOnChar sep rest
    else
      match splitOnChar sep rest with
      | [] => [[c]]
      | p :: ps => (c :: p) :: ps

/-- Python `s.ljust(3, '0')[:3]`: pad on the right with zeros to length 3,
then truncate to 3 characters. -/
def ljust3 (cs : List Char) : List Char :=
  (cs ++ List.replicate (3 - cs.length) '0').take 3

/-- `SubtitleEditorWidget.parse_timestamp` on the character list: replace
`','` with `'.'`, split on `':'` into exactly 3 fields (else the
`ValueError` raise, modelled as `none`), read hours and minutes with
`int()`, split the last field on `'.'`, read seconds from its first piece,
and read the milliseconds from piece 1 (if present) after `ljust(3,'0')[:3]`;
the result is `pysrt.SubRipTime(hours, minutes, seconds, milliseconds)`. -/
def parse_timestamp_chars (cs : List Char) : Option SubRipTime :=
  match splitOnChar ':' (pyReplaceCommaDot cs) with
  | [p0, p1, p2] =>
    match pyInt p0, pyInt p1 with
    | some hours, some minutes =>
      match pyInt ((splitOnChar '.' p2).headD []) with
      | some seconds =>
        match (splitOnChar '.' p2).get? 1 with
        | some frac =>
          match pyInt (ljust3 frac) with
          | some milliseconds => some (mkTime hours minutes seconds milliseconds)
          | none => none
        | none => some (mkTime hours minutes seconds 0)
      | none => none
    | _, _ => none
  | _ => none

/-- `SubtitleEditorWidget.parse_timestamp`. -/
def parse_timestamp (s : String) : Option SubRipTime :=
  parse_timestamp_chars s.data

/-- `SubtitleEditorWidget.update_indices` with the running enumeration
counter: `for i, sub in enumerate(self.subtitles): sub.index = i + 1`. -/
def update_indices_from (i : ℕ) : List SubRipItem → List SubRipItem
  | [] => []
  | sub :: rest => { sub with index := i + 1 } :: update_indices_from (i + 1) rest

/-- `SubtitleEditorWidget.update_indices`. -/
def update_indices (subs : List SubRipItem) : List SubRipItem :=
  update_indices_from 0 subs

/-- `SubtitleEditorWidget.edit_timing`, reduced to its timeline effect: the
accepted dialog supplies a start string and an end string; when both parse,
the current subtitle's start and end are replaced in place (no reordering,
no renumbering); a parse failure raises inside the `try`, is caught, and
leaves the timeline unchanged. -/
def edit_timing (subs : List SubRipItem) (cur : ℕ) (startStr endStr : String) :
    List SubRipItem :=
  match subs.get? cur with
  | none => subs
  | some current_sub =>
    match parse_timestamp startStr, parse_timestamp endStr with
    | some st, some et => subs.set cur { current_sub with start := st, stop := et }
    | _, _ => subs

/-- `SubtitleEditorWidget.delete_subtitle`, reduced to its timeline effect
(confirmation accepted; the selected row is in range whenever a selection
exists). -/
def delete_subtitle (subs : List SubRipItem) (cur : ℕ) : List SubRipItem :=
  if cur < subs.length then update_indices (subs.eraseIdx cur) else subs

/-- `SubtitleEditorWidget.split_subtitle` (the text-cursor split).  The
editor text mirrors the current subtitle's text.  A cursor at position 0 or
at/past the end is rejected; both halves are stripped (`pyStrip` models
Python `strip`: whitespace removed from both ends) and must be non-empty.  The split time is
`start + int(duration * cursor_pos / len(text))`, modelled exactly on
rationals-free naturals as floor division.  Note the source assigns
`current_sub.end = split_time` first and only then builds the new item with
`end=current_sub.end`, so the new item's end is the split time too. -/
def pyStrip (s : String) : String :=
  ⟨((s.data.dropWhile Char.isWhitespace).reverse.dropWhile
      Char.isWhitespace).reverse⟩

def editor_split_subtitle (subs : List SubRipItem) (cur : ℕ) (cursor_pos : ℕ) :
    List SubRipItem :=
  match subs.get? cur with
  | none => subs
  | some current_sub =>
    let text := current_sub.text
    if cursor_pos = 0 ∨ cursor_pos ≥ text.length then subs
    else
      let start_ms := current_sub.start.ordinal
      let end_ms := current_sub.stop.ordinal
      let duration_ms := end_ms - start_ms
      let text_before := pyStrip (text.take cursor_pos)
      let text_after := pyStrip (text.drop cursor_pos)
      if text_before = "" ∨ text_after = "" then subs
      else
        let split_ms := start_ms + duration_ms * cursor_pos / text.length
        let updated := { current_sub with text := text_before, stop := ⟨split_ms⟩ }
        let new_sub : SubRipItem :=
          ⟨current_sub.index + 1, ⟨split_ms⟩, updated.stop, text_after⟩
        update_indices ((subs.set cur updated).take (cur + 1) ++
          new_sub :: (subs.set cur updated).drop (cur + 1))

/-- `SubtitleEditorWidget.add_subtitle`, reduced to its timeline effect.
`cur = some c` models a selected row (in range whenever a selection exists),
`none` no selection.  On an empty timeline the method shows a warning and
returns without adding.  When a subtitle follows the selected one, the
overlap check reads `next_sub.seconds` — an attribute `pysrt.SubRipItem`
does not define — so the handler raises `AttributeError`, modelled as
`Except.error`.  When the selected subtitle is the last one, the new end is
the absolute time `SubRipTime(0, 0, 5, 0)`, i.e. 00:00:05.000.  With no
selection the new subtitle is appended with end = start + 5 s (the
`SubRipTime` constructor normalises `seconds + 5`). -/
def add_subtitle (subs : List SubRipItem) (cur : Option ℕ) :
    Except String (List SubRipItem) :=
  if subs.isEmpty then Except.ok subs
  else
    match cur with
    | some c =>
      match subs.get? c with
      | none => Except.ok subs
      | some current_sub =>
        if c < subs.length - 1 then
          Except.error "AttributeError: SubRipItem object has no attribute seconds"
        else
          let new_sub : SubRipItem :=
            ⟨subs.length + 1, current_sub.stop, mkTime 0 0 5 0, ""⟩
          Except.ok (update_indices
            (subs.take (c + 1) ++ new_sub :: subs.drop (c + 1)))
    | none =>
      let new_start := (subs.getLastD default).stop
      let new_sub : SubRipItem :=
        ⟨subs.length + 1, new_start,
          mkTime new_start.hours new_start.minutes (new_start.seconds + 5)
            new_start.milliseconds, ""⟩
      Except.ok (subs ++ [new_sub])

/-- The index field of every segment equals its 1-based position. -/
def hasCanonicalIndices (subs : List SubRipItem) : Prop :=
  subs.map SubRipItem.index = List.range' 1 subs.length

/-- The sequence is ordered by ascending start time. -/
def ascendingByStart (subs : List SubRipItem) : Prop :=
  subs.Pairwise (fun a b => a.start.ordinal ≤ b.start.ordinal)

/-- A two-segment timeline in canonical form, used to exhibit that a
successful re-time breaks ascending-start order. -/
def c2timeline : List SubRipItem :=
  [⟨1, ⟨0⟩, ⟨1000⟩, "a"⟩, ⟨2, ⟨2000⟩, ⟨3000⟩, "b"⟩]

theorem groupStep_skip (st : List Segment × Option Segment) (item : TranscriptItem)
    (h : ¬ item.type = "pronunciation") : groupStep st item = st := by
  simp [groupStep, h]

theorem foldl_groupStep_filter (items : List TranscriptItem) :
    ∀ st, items.foldl groupStep st =
      (items.filter (fun t => t.type == "pronunciation")).foldl groupStep st := by
  induction items with
  | nil => intro st; rfl
  | cons t ts ih =>
    intro st
    by_cases h : t.type = "pronunciation"
    · simp [List.filter_cons, h, List.foldl_cons, ih]
    · simp [List.filter_cons, h, List.foldl_cons, ih, groupStep_skip st t h]

theorem foldl_groupStep_kept (ts : List TranscriptItem) :
    ∀ done acc, (∀ t ∈ ts, t.type = "pronunciation") →
      groupFinish (ts.foldl groupStep (done, some acc)) =
        done ++ specGroupWalk acc ts := by
  induction ts with
  | nil => intro done acc _; simp [groupFinish, specGroupWalk]
  | cons t ts ih =>
    intro done acc hkept
    have ht : t.type = "pronunciation" := hkept t (by simp)
    have hts : ∀ u ∈ ts, u.type = "pronunciation" := fun u hu => hkept u (by simp [hu])
    by_cases hgap : t.start_time - acc.end_time < 0.5
    · simp only [List.foldl_cons, groupStep, ht, ne_eq, not_true_eq_false, if_false,
        hgap, if_true, specGroupWalk]
      exact ih done _ hts
    · simp only [List.foldl_cons, groupStep, ht, ne_eq, not_true_eq_false, if_false,
        hgap, if_false, specGroupWalk]
      rw [ih (done ++ [acc]) _ hts]
      simp

theorem group_transcript_items_eq_spec (items : List TranscriptItem) :
    group_transcript_items items = specSegmentation items := by
  unfold group_transcript_items specSegmentation
  rw [foldl_groupStep_filter]
  have hkept : ∀ t ∈ items.filter (fun t => t.type == "pronunciation"),
      t.type = "pronunciation" := by
    intro t ht
    have := List.of_mem_filter ht
    simpa using this
  cases hfil : items.filter (fun t => t.type == "pronunciation") with
  | nil => rfl
  | cons t ts =>
    rw [hfil] at hkept
    have ht : t.type = "pronunciation" := hkept t (by simp)
    have hts : ∀ u ∈ ts, u.type = "pronunciation" := fun u hu => hkept u (by simp [hu])
    simp only [List.foldl_cons, groupStep, ht, ne_eq, not_true_eq_false, if_false]
    exact foldl_groupStep_kept ts [] _ hts

/-- Claim C1: the segmentation pass discards non-pronunciation tokens and
groups the kept tokens left to right, extending the open accumulator exactly
when the token's start minus the accumulator's end is strictly below 0.5 s,
emitting the accumulator otherwise and emitting the final open accumulator
last; on the example tokens ("hi",0.0,0.3), ("there",0.35,0.7),
("bye",2.0,2.3) it yields segments (0.0,0.7,"hi there") and (2.0,2.3,"bye"),
and on the empty list it yields the empty list. -/
theorem c1_segmentation_algorithm :
    (∀ items : List TranscriptItem,
        group_transcript_items items = specSegmentation items)
    ∧ group_transcript_items
        [⟨"pronunciation", 0, 0.3, "hi"⟩, ⟨"pronunciation", 0.35, 0.7, "there"⟩,
         ⟨"pronunciation", 2, 2.3, "bye"⟩]
        = [⟨0, 0.7, "hi there"⟩, ⟨2, 2.3, "bye"⟩]
    ∧ group_transcript_items [] = [] := by
  refine ⟨group_transcript_items_eq_spec, ?_, rfl⟩
  norm_num [group_transcript_items, groupFinish, groupStep, List.foldl]
  rfl

/-- Claim C10: a kept token whose start lies strictly before the open
accumulator's end always passes the strict gap test and extends the
accumulator, the extension setting the accumulator's end to the token's end
unconditionally; hence the segment emitted for tokens ("a",0,5), ("b",1,2)
ends at 2, the end of the last grouped token, not at the maximum end 5. -/
theorem c10_overlap_extends
    (done : List Segment) (acc : Segment) (t : TranscriptItem)
    (htype : t.type = "pronunciation") (hlt : t.start_time < acc.end_time) :
    groupStep (done, some acc) t =
      (done, some ⟨acc.start_time, t.end_time, acc.text ++ " " ++ t.content⟩)
    ∧ group_transcript_items
        [⟨"pronunciation", 0, 5, "a"⟩, ⟨"pronunciation", 1, 2, "b"⟩]
        = [⟨0, 2, "a b"⟩] := by
  constructor
  · have hgap : t.start_time - acc.end_time < 0.5 := by
      have h0 : t.start_time - acc.end_time < 0 := by linarith
      have : (0 : ℚ) < 0.5 := by norm_num
      linarith
    simp [groupStep, htype, hgap]
  · norm_num [group_transcript_items, groupFinish, groupStep, List.foldl]
    rfl

/-- Witness for C10 at concrete inputs. -/
theorem c10_overlap_extends_witness :
    (⟨"pronunciation", 1, 2, "b"⟩ : TranscriptItem).type = "pronunciation"
    ∧ (⟨"pronunciation", 1, 2, "b"⟩ : TranscriptItem).start_time
        < (⟨0, 5, "a"⟩ : Segment).end_time
    ∧ groupStep ([], some ⟨0, 5, "a"⟩) ⟨"pronunciation", 1, 2, "b"⟩
        = ([], some ⟨0, 2, "a b"⟩) :=
  ⟨rfl, by norm_num,
    (c10_overlap_extends [] ⟨0, 5, "a"⟩ ⟨"pronunciation", 1, 2, "b"⟩ rfl
      (by norm_num)).1⟩

/-- Claim C9: the seconds-to-timestamp conversion discards whole days, so a
time and the same time plus 86400 seconds produce the same `SubRipTime`; the
wrap is inherited by crop and split, which convert through it. -/
theorem c9_day_wrap (q : ℚ) (hq : 0 ≤ q) :
    seconds_to_subrip_time (q + 86400) = seconds_to_subrip_time q
    ∧ (∀ (subtitle : SubRipItem) (is_end : Bool),
        crop_subtitle subtitle is_end (some (q + 86400)) =
          crop_subtitle subtitle is_end (some q))
    ∧ (∀ subtitle : SubRipItem,
        split_subtitle subtitle (q + 86400) = split_subtitle subtitle q) := by
  have hfloor : ⌊q + 86400⌋ = ⌊q⌋ + 86400 := by
    have h1 : ((86400 : ℚ)) = ((86400 : ℤ) : ℚ) := by norm_num
    rw [h1, Int.floor_add_int]
  have hmain : seconds_to_subrip_time (q + 86400) = seconds_to_subrip_time q := by
    have hmod : (⌊q⌋ + 86400) % (86400 : ℤ) = ⌊q⌋ % 86400 := by omega
    have hfrac : q + 86400 - ((⌊q⌋ + 86400 : ℤ) : ℚ) = q - ((⌊q⌋ : ℤ) : ℚ) := by
      push_cast; ring
    unfold seconds_to_subrip_time
    rw [hfloor, hmod, hfrac]
  refine ⟨hmain, ?_, ?_⟩
  · intro subtitle is_end
    simp only [crop_subtitle, hmain]
  · intro subtitle
    simp only [split_subtitle, hmain]

/-- Witness for C9 at the concrete input 5 seconds. -/
theorem c9_day_wrap_witness :
    (0 : ℚ) ≤ 5 ∧
      seconds_to_subrip_time ((5 : ℚ) + 86400) = seconds_to_subrip_time 5 :=
  ⟨by norm_num, (c9_day_wrap 5 (by norm_num)).1⟩

/-- Claim C4: the pure time split keeps the first part from the original
start to the position and the second from the position to the original end
(text and index copied) when the position lies within the segment's bounds,
and returns the original segment with no second part otherwise. -/
theorem c4_split_bounds (subtitle : SubRipItem) (p : ℕ) :
    (subtitle.start.ordinal ≤ p ∧ p ≤ subtitle.stop.ordinal →
      split_subtitle_at subtitle p =
        ({ subtitle with stop := ⟨p⟩ }, some { subtitle with start := ⟨p⟩ }))
    ∧ (¬ (subtitle.start.ordinal ≤ p ∧ p ≤ subtitle.stop.ordinal) →
      split_subtitle_at subtitle p = (subtitle, none)) := by
  constructor
  · intro h; simp [split_subtitle_at, h]
  · intro h; simp [split_subtitle_at, h]

/-- Witness for C4: the spec example segment 1000..5000 split at 3000
(inside) and at 6000 (outside). -/
theorem c4_split_bounds_witness :
    ((⟨1, ⟨1000⟩, ⟨5000⟩, "t"⟩ : SubRipItem).start.ordinal ≤ 3000 ∧
      3000 ≤ (⟨1, ⟨1000⟩, ⟨5000⟩, "t"⟩ : SubRipItem).stop.ordinal)
    ∧ split_subtitle_at ⟨1, ⟨1000⟩, ⟨5000⟩, "t"⟩ 3000 =
        (⟨1, ⟨1000⟩, ⟨3000⟩, "t"⟩, some ⟨1, ⟨3000⟩, ⟨5000⟩, "t"⟩)
    ∧ split_subtitle_at ⟨1, ⟨1000⟩, ⟨5000⟩, "t"⟩ 6000 =
        (⟨1, ⟨1000⟩, ⟨5000⟩, "t"⟩, none) :=
  ⟨⟨by norm_num, by norm_num⟩,
    (c4_split_bounds ⟨1, ⟨1000⟩, ⟨5000⟩, "t"⟩ 3000).1 ⟨by norm_num, by norm_num⟩,
    (c4_split_bounds ⟨1, ⟨1000⟩, ⟨5000⟩, "t"⟩ 6000).2 (by norm_num)⟩

theorem mem_insertSorted (x a : ℤ) (l : List ℤ) :
    a ∈ insertSorted x l ↔ a ∈ x :: l := by
  induction l with
  | nil => simp [insertSorted]
  | cons y ys ih =>
    by_cases h : x ≤ y
    · simp [insertSorted, h]
    · simp only [insertSorted, h, if_false, List.mem_cons, ih]
      tauto

theorem mem_pySorted (a : ℤ) (l : List ℤ) : a ∈ pySorted l ↔ a ∈ l := by
  induction l with
  | nil => simp [pySorted]
  | cons x xs ih =>
    simp only [pySorted, List.foldr_cons]
    rw [mem_insertSorted]
    simp only [List.mem_cons]
    rw [show xs.foldr insertSorted [] = pySorted xs from rfl] at *
    simp [ih]

/-- Counterexample to C5: a two-element index collection of which only one
index is in range does not yield the no-op result; with one subtitle and
indices {0, 5} the code merges the single in-range subtitle and reports the
out-of-range index 5 as removed. -/
theorem c5_counterexample :
    merge_subtitles [⟨1, ⟨0⟩, ⟨1000⟩, "a"⟩] [0, 5] =
      (some ⟨1, ⟨0⟩, ⟨1000⟩, "a"⟩, [5])
    ∧ merge_subtitles [⟨1, ⟨0⟩, ⟨1000⟩, "a"⟩] [0, 5] ≠ (none, []) := by
  constructor
  · rfl
  · intro h
    simp only [merge_subtitles] at h
    revert h
    decide

/-- Claim C5 amended: merge returns the empty/no-op result when fewer than 2
indices are supplied in total, or when none of the supplied indices is in
range; a collection with at least one in-range index is merged (it is not a
no-op even if it is the only valid one). -/
theorem c5_merge_noop (subtitles : List SubRipItem) (indices : List ℤ) :
    (indices.length < 2 → merge_subtitles subtitles indices = (none, []))
    ∧ ((∀ i ∈ indices, ¬ (0 ≤ i ∧ i < (subtitles.length : ℤ))) →
        merge_subtitles subtitles indices = (none, [])) := by
  constructor
  · intro h; simp [merge_subtitles, h]
  · intro h
    unfold merge_subtitles
    by_cases hlen : indices.length < 2
    · simp [hlen]
    · simp only [hlen, if_false]
      have hnil : (pySorted indices).filterMap (fun i =>
          if 0 ≤ i ∧ i < (subtitles.length : ℤ) then subtitles.get? i.toNat
          else none) = [] := by
        rw [List.filterMap_eq_nil_iff]
        intro i hi
        have hmem : i ∈ indices := (mem_pySorted i indices).1 hi
        simp [h i hmem]
      rw [hnil]

/-- Witness for C5 amended: empty subtitle list, single out-of-range index. -/
theorem c5_merge_noop_witness :
    (([5] : List ℤ).length < 2 ∧
      merge_subtitles ([] : List SubRipItem) [5] = (none, []))
    ∧ ((∀ i ∈ ([5] : List ℤ), ¬ ((0 : ℤ) ≤ i ∧ i < ((0 : ℕ) : ℤ)))
        ∧ merge_subtitles ([] : List SubRipItem) [5] = (none, [])) :=
  ⟨⟨by norm_num, (c5_merge_noop [] [5]).1 (by norm_num)⟩,
    ⟨by decide, (c5_merge_noop [] [5]).2 (by decide)⟩⟩

/-- Counterexample to C6: a failed parse (e.g. a malformed block with a
missing separator) is swallowed and produces the same silent empty result as
a successfully parsed empty file; no typed ParseError reaches the caller. -/
theorem c6_counterexample :
    load_srt (Except.error ⟨"malformed block: missing separator"⟩) =
      load_srt (Except.ok [])
    ∧ load_srt (Except.error ⟨"malformed block: missing separator"⟩) = [] :=
  ⟨rfl, rfl⟩

/-- Claim C6 amended: on any parse failure `load_srt` catches the exception
and returns the empty list (after logging), so the caller receives a silent
empty result rather than a typed error; only on success is the parsed list
returned unchanged. -/
theorem c6_load_srt_swallows (e : ParseError) (subs : List SubRipItem) :
    load_srt (Except.error e) = [] ∧ load_srt (Except.ok subs) = subs :=
  ⟨rfl, rfl⟩

theorem charToDigit_digitChar (d : ℕ) (hd : d < 10) :
    charToDigit (digitChar d) = some d := by
  interval_cases d <;> rfl

theorem digitChar_ne_seps (d : ℕ) (hd : d < 10) :
    digitChar d ≠ ':' ∧ digitChar d ≠ '.' ∧ digitChar d ≠ ',' := by
  interval_cases d <;> exact ⟨by decide, by decide, by decide⟩

theorem parseDigits_map_digitChar (ds : List ℕ) (h : ∀ d ∈ ds, d < 10) :
    parseDigits (ds.map digitChar) = some ds := by
  induction ds with
  | nil => rfl
  | cons d ds ih =>
    have hd : d < 10 := h d (by simp)
    have hds : ∀ x ∈ ds, x < 10 := fun x hx => h x (by simp [hx])
    simp only [List.map_cons, parseDigits, charToDigit_digitChar d hd, ih hds]

theorem ofDigits_replicate_zero (k : ℕ) :
    Nat.ofDigits 10 (List.replicate k 0) = 0 := by
  induction k with
  | zero => rfl
  | succ n ih => simp [List.replicate, Nat.ofDigits_cons, ih]

theorem natDigits_lt (n : ℕ) : ∀ d ∈ natDigits n, d < 10 := by
  intro d hd
  unfold natDigits at hd
  by_cases hn : n = 0
  · simp [hn] at hd; omega
  · simp only [hn, if_false, List.mem_reverse] at hd
    exact Nat.digits_lt_base (by norm_num) hd

theorem natDigits_ne_nil (n : ℕ) : natDigits n ≠ [] := by
  unfold natDigits
  by_cases hn : n = 0
  · simp [hn]
  · simp only [hn, if_false, ne_eq, List.reverse_eq_nil_iff]
    simp [Nat.digits_ne_nil_iff_ne_zero, hn]

theorem ofDigits_natDigits_reverse (n : ℕ) :
    Nat.ofDigits 10 (natDigits n).reverse = n := by
  unfold natDigits
  by_cases hn : n = 0
  · simp [hn, Nat.ofDigits]
  · simp only [hn, if_false, List.reverse_reverse]
    exact Nat.ofDigits_digits 10 n

theorem padZeros_natChars_map (w n : ℕ) :
    padZeros w (natChars n) =
      (List.replicate (w - (natChars n).length) 0 ++ natDigits n).map digitChar := by
  simp only [padZeros, natChars, List.map_append, List.map_replicate]
  rfl

theorem pyInt_padZeros_natChars (w n : ℕ) :
    pyInt (padZeros w (natChars n)) = some n := by
  rw [padZeros_natChars_map]
  have hall : ∀ d ∈ List.replicate (w - (natChars n).length) 0 ++ natDigits n,
      d < 10 := by
    intro d hd
    rcases List.mem_append.1 hd with h | h
    · have := List.eq_of_mem_replicate h; omega
    · exact natDigits_lt n d h
  rw [pyInt, parseDigits_map_digitChar _ hall]
  have hne : (List.replicate (w - (natChars n).length) 0 ++ natDigits n) ≠ [] := by
    simp [natDigits_ne_nil n]
  simp only [List.isEmpty_iff, hne, if_false]
  congr 1
  rw [List.reverse_append, List.reverse_replicate]
  have happ : Nat.ofDigits 10
      ((natDigits n).reverse ++ List.replicate (w - (natChars n).length) 0) =
      Nat.ofDigits 10 (natDigits n).reverse +
        10 ^ (natDigits n).reverse.length *
          Nat.ofDigits 10 (List.replicate (w - (natChars n).length) 0) := by
    exact_mod_cast Nat.ofDigits_append
  rw [happ, ofDigits_natDigits_reverse, ofDigits_replicate_zero]
  ring

theorem mem_padZeros_natChars (w n : ℕ) (c : Char)
    (hc : c ∈ padZeros w (natChars n)) : ∃ d, d < 10 ∧ c = digitChar d := by
  rw [padZeros_natChars_map] at hc
  rcases List.mem_map.1 hc with ⟨d, hd, hcd⟩
  refine ⟨d, ?_, hcd.symm⟩
  rcases List.mem_append.1 hd with h | h
  · have := List.eq_of_mem_replicate h; omega
  · exact natDigits_lt n d h

theorem padZeros_natChars_no_seps (w n : ℕ) :
    ∀ c ∈ padZeros w (natChars n), c ≠ ':' ∧ c ≠ '.' ∧ c ≠ ',' := by
  intro c hc
  rcases mem_padZeros_natChars w n c hc with ⟨d, hd, rfl⟩
  exact digitChar_ne_seps d hd

theorem splitOnChar_no_sep (sep : Char) (cs : List Char)
    (h : ∀ c ∈ cs, c ≠ sep) : splitOnChar sep cs = [cs] := by
  induction cs with
  | nil => rfl
  | cons c cs ih =>
    have hc : c ≠ sep := h c (by simp)
    have hcs : ∀ x ∈ cs, x ≠ sep := fun x hx => h x (by simp [hx])
    simp only [splitOnChar, hc, if_false, ih hcs]

theorem splitOnChar_append_sep (sep : Char) (xs ys : List Char)
    (h : ∀ c ∈ xs, c ≠ sep) :
    splitOnChar sep (xs ++ sep :: ys) = xs :: splitOnChar sep ys := by
  induction xs with
  | nil => simp [splitOnChar]
  | cons x xs ih =>
    have hx : x ≠ sep := h x (by simp)
    have hxs : ∀ c ∈ xs, c ≠ sep := fun c hc => h c (by simp [hc])
    simp only [List.cons_append, splitOnChar, hx, if_false, List.append_eq, ih hxs]

theorem pyReplace_no_comma (cs : List Char) (h : ∀ c ∈ cs, c ≠ ',') :
    pyReplaceCommaDot cs = cs := by
  induction cs with
  | nil => rfl
  | cons c cs ih =>
    have hc : c ≠ ',' := h c (by simp)
    have hcs : ∀ x ∈ cs, x ≠ ',' := fun x hx => h x (by simp [hx])
    simp only [pyReplaceCommaDot, List.map_cons, hc, if_false]
    rw [show cs.map (fun c => if c = ',' then '.' else c) = pyReplaceCommaDot cs
      from rfl, ih hcs]

theorem natChars_length_le_three (ms : ℕ) (hms : ms < 1000) :
    (natChars ms).length ≤ 3 := by
  simp only [natChars, List.length_map, natDigits]
  by_cases hn : ms = 0
  · simp [hn]
  · simp only [hn, if_false, List.length_reverse]
    rw [Nat.digits_len 10 ms (by norm_num) hn]
    have := Nat.log_lt_of_lt_pow hn (show ms < 10 ^ 3 by omega)
    omega

theorem padZeros_three_length (ms : ℕ) (hms : ms < 1000) :
    (padZeros 3 (natChars ms)).length = 3 := by
  have h := natChars_length_le_three ms hms
  simp only [padZeros, List.length_append, List.length_replicate]
  omega

theorem ljust3_padZeros (ms : ℕ) (hms : ms < 1000) :
    ljust3 (padZeros 3 (natChars ms)) = padZeros 3 (natChars ms) := by
  have h := padZeros_three_length ms hms
  unfold ljust3
  rw [h]
  simp only [Nat.sub_self, List.replicate_zero, List.append_nil]
  exact List.take_of_length_le (le_of_eq h)

theorem format_chars_no_comma (h m s ms : ℕ) :
    pyReplaceCommaDot (format_timestamp_chars h m s ms) =
      format_timestamp_chars h m s ms := by
  apply pyReplace_no_comma
  intro c hc
  simp only [format_timestamp_chars, List.mem_append, List.mem_cons] at hc
  rcases hc with h1 | h1 | h1 | h1 | h1 | h1 | h1
  · exact (padZeros_natChars_no_seps 2 h c h1).2.2
  · subst h1; decide
  · exact (padZeros_natChars_no_seps 2 m c h1).2.2
  · subst h1; decide
  · exact (padZeros_natChars_no_seps 2 s c h1).2.2
  · subst h1; decide
  · exact (padZeros_natChars_no_seps 3 ms c h1).2.2

theorem split_format_chars (h m s ms : ℕ) :
    splitOnChar ':' (format_timestamp_chars h m s ms) =
      [padZeros 2 (natChars h), padZeros 2 (natChars m),
        padZeros 2 (natChars s) ++ '.' :: padZeros 3 (natChars ms)] := by
  unfold format_timestamp_chars
  rw [splitOnChar_append_sep ':' _ _
    (fun c hc => (padZeros_natChars_no_seps 2 h c hc).1)]
  rw [splitOnChar_append_sep ':' _ _
    (fun c hc => (padZeros_natChars_no_seps 2 m c hc).1)]
  rw [splitOnChar_no_sep ':' _ ?_]
  intro c hc
  rcases List.mem_append.1 hc with h1 | h1
  · exact (padZeros_natChars_no_seps 2 s c h1).1
  · rcases List.mem_cons.1 h1 with h2 | h2
    · subst h2; decide
    · exact (padZeros_natChars_no_seps 3 ms c h2).1

theorem parse_format_chars (h m s ms : ℕ) (hms : ms < 1000) :
    parse_timestamp_chars (format_timestamp_chars h m s ms) =
      some (mkTime h m s ms) := by
  unfold parse_timestamp_chars
  rw [format_chars_no_comma, split_format_chars]
  have hsec : splitOnChar '.' (padZeros 2 (natChars s) ++ '.' :: padZeros 3 (natChars ms)) =
      [padZeros 2 (natChars s), padZeros 3 (natChars ms)] := by
    rw [splitOnChar_append_sep '.' _ _
      (fun c hc => (padZeros_natChars_no_seps 2 s c hc).2.1)]
    rw [splitOnChar_no_sep '.' _
      (fun c hc => (padZeros_natChars_no_seps 3 ms c hc).2.1)]
  simp only [pyInt_padZeros_natChars, hsec, List.headD_cons, List.get?_cons_succ,
    List.get?_cons_zero, ljust3_padZeros ms hms, pyInt_padZeros_natChars]

theorem mkTime_fields (h m s ms : ℕ) (hm : m < 60) (hs : s < 60) (hms : ms < 1000) :
    (mkTime h m s ms).hours = h ∧ (mkTime h m s ms).minutes = m ∧
      (mkTime h m s ms).seconds = s ∧ (mkTime h m s ms).milliseconds = ms := by
  unfold mkTime SubRipTime.hours SubRipTime.minutes SubRipTime.seconds
    SubRipTime.milliseconds
  refine ⟨?_, ?_, ?_, ?_⟩ <;> simp only <;> omega

/-- Claim C7: formatting an in-range timestamp (h, m, s, ms) as
zero-padded `HH:MM:SS.mmm` and parsing it back returns exactly (h, m, s, ms);
parsing tolerates `','` for `'.'`, pads or truncates the fractional part to
exactly 3 digits, and fails on any input without exactly 3 colon-delimited
fields. -/
theorem c7_timestamp_roundtrip (h m s ms : ℕ)
    (hm : m < 60) (hs : s < 60) (hms : ms < 1000) :
    parse_timestamp (format_timestamp (mkTime h m s ms)) = some (mkTime h m s ms)
    ∧ parse_timestamp ⟨format_timestamp_comma_chars h m s ms⟩ = some (mkTime h m s ms)
    ∧ ((mkTime h m s ms).hours = h ∧ (mkTime h m s ms).minutes = m ∧
        (mkTime h m s ms).seconds = s ∧ (mkTime h m s ms).milliseconds = ms)
    ∧ (∀ str : String,
        (splitOnChar ':' (pyReplaceCommaDot str.data)).length ≠ 3 →
          parse_timestamp str = none)
    ∧ parse_timestamp "00:00:01.5" = some (mkTime 0 0 1 500)
    ∧ parse_timestamp "00:00:01.12345" = some (mkTime 0 0 1 123) := by
  obtain ⟨hh', hm', hs', hms'⟩ := mkTime_fields h m s ms hm hs hms
  refine ⟨?_, ?_, ⟨hh', hm', hs', hms'⟩, ?_, by decide, by decide⟩
  · show parse_timestamp_chars (format_timestamp_chars
      (mkTime h m s ms).hours (mkTime h m s ms).minutes
      (mkTime h m s ms).seconds (mkTime h m s ms).milliseconds) = _
    rw [hh', hm', hs', hms']
    exact parse_format_chars h m s ms hms
  · show parse_timestamp_chars (format_timestamp_comma_chars h m s ms) = _
    have hcomma : pyReplaceCommaDot (format_timestamp_comma_chars h m s ms) =
        format_timestamp_chars h m s ms := by
      have hcons : ∀ (c : Char) (cs : List Char), pyReplaceCommaDot (c :: cs) =
          (if c = ',' then '.' else c) :: pyReplaceCommaDot cs := fun c cs => rfl
      have happ : ∀ xs ys : List Char, pyReplaceCommaDot (xs ++ ys) =
          pyReplaceCommaDot xs ++ pyReplaceCommaDot ys := fun xs ys =>
        List.map_append _ xs ys
      have hmap : ∀ n w : ℕ, pyReplaceCommaDot (padZeros w (natChars n)) =
          padZeros w (natChars n) :=
        fun n w => pyReplace_no_comma _
          (fun c hc => (padZeros_natChars_no_seps w n c hc).2.2)
      unfold format_timestamp_comma_chars format_timestamp_chars
      rw [happ, hcons, happ, hcons, happ, hcons]
      rw [hmap h 2, hmap m 2, hmap s 2, hmap ms 3]
      rfl
    unfold parse_timestamp_chars
    rw [hcomma]
    have := parse_format_chars h m s ms hms
    unfold parse_timestamp_chars at this
    rw [format_chars_no_comma] at this
    exact this
  · intro str hlen
    unfold parse_timestamp parse_timestamp_chars
    revert hlen
    cases hp : splitOnChar ':' (pyReplaceCommaDot str.data) with
    | nil => intro _; rfl
    | cons a t1 =>
      cases t1 with
      | nil => intro _; rfl
      | cons b t2 =>
        cases t2 with
        | nil => intro _; rfl
        | cons c t3 =>
          cases t3 with
          | nil => intro hlen; simp at hlen
          | cons d t4 => intro _; rfl

/-- Witness for C7 at (12, 34, 56, 789). -/
theorem c7_timestamp_roundtrip_witness :
    (34 : ℕ) < 60 ∧ (56 : ℕ) < 60 ∧ (789 : ℕ) < 1000 ∧
      parse_timestamp (format_timestamp (mkTime 12 34 56 789)) =
        some (mkTime 12 34 56 789) :=
  ⟨by norm_num, by norm_num, by norm_num,
    (c7_timestamp_roundtrip 12 34 56 789 (by norm_num) (by norm_num)
      (by norm_num)).1⟩

theorem update_indices_from_map (l : List SubRipItem) :
    ∀ k, (update_indices_from k l).map SubRipItem.index =
      List.range' (k + 1) l.length := by
  induction l with
  | nil => intro k; rfl
  | cons a l ih =>
    intro k
    show ({ a with index := k + 1 } : SubRipItem).index ::
        (update_indices_from (k + 1) l).map SubRipItem.index =
      List.range' (k + 1) (l.length + 1)
    rw [ih (k + 1)]
    rfl

theorem update_indices_from_length (l : List SubRipItem) :
    ∀ k, (update_indices_from k l).length = l.length := by
  induction l with
  | nil => intro k; rfl
  | cons a l ih =>
    intro k
    show (update_indices_from (k + 1) l).length + 1 = l.length + 1
    rw [ih (k + 1)]

theorem update_indices_canonical (subs : List SubRipItem) :
    hasCanonicalIndices (update_indices subs) := by
  unfold hasCanonicalIndices update_indices
  rw [update_indices_from_map, update_indices_from_length]

theorem list_map_set_same {α β : Type} (f : α → β) (l : List α) (n : ℕ)
    (a b : α) (hget : l.get? n = some b) (hfab : f a = f b) :
    (l.set n a).map f = l.map f := by
  induction l generalizing n with
  | nil => rfl
  | cons x xs ih =>
    cases n with
    | zero =>
      simp only [List.get?_cons_zero, Option.some_inj] at hget
      subst hget
      simp [List.set, hfab]
    | succ n =>
      simp only [List.get?_cons_succ] at hget
      simp [List.set, ih n hget]

theorem edit_timing_map_index (subs : List SubRipItem) (cur : ℕ)
    (startStr endStr : String) :
    (edit_timing subs cur startStr endStr).map SubRipItem.index =
      subs.map SubRipItem.index := by
  unfold edit_timing
  cases hget : subs.get? cur with
  | none => rfl
  | some current_sub =>
    cases parse_timestamp startStr with
    | none => rfl
    | some st =>
      cases parse_timestamp endStr with
      | none => rfl
      | some et =>
        exact list_map_set_same SubRipItem.index subs cur _ current_sub hget rfl

/-- Counterexample to C2: `c2timeline` is a reachable, canonical timeline
(indices 1..2, ascending starts); one successful re-time of segment 1 to
5000..6000 ms completes, yet the resulting sequence is no longer ordered by
ascending start time, because `edit_timing` never re-sorts. -/
theorem c2_counterexample :
    hasCanonicalIndices c2timeline
    ∧ ascendingByStart c2timeline
    ∧ edit_timing c2timeline 0 "00:00:05.000" "00:00:06.000" =
        [⟨1, ⟨5000⟩, ⟨6000⟩, "a"⟩, ⟨2, ⟨2000⟩, ⟨3000⟩, "b"⟩]
    ∧ ¬ ascendingByStart (edit_timing c2timeline 0 "00:00:05.000" "00:00:06.000") := by
  have hres : edit_timing c2timeline 0 "00:00:05.000" "00:00:06.000" =
      [⟨1, ⟨5000⟩, ⟨6000⟩, "a"⟩, ⟨2, ⟨2000⟩, ⟨3000⟩, "b"⟩] := by decide
  refine ⟨rfl, ?_, hres, ?_⟩
  · norm_num [ascendingByStart, c2timeline, List.pairwise_cons]
  · rw [hres]
    norm_num [ascendingByStart, List.pairwise_cons]

/-- Claim C2 amended: the operations that end with a renumber (insert after
a selection, delete, merge, split) leave indices exactly 1..N matching the
1-based positions — `update_indices` always establishes this — and deletion
of an in-range row renumbers to 1..N; but re-time (`edit_timing`) merely
preserves the existing index sequence and performs no re-sort, so the
ascending-start order part of the claimed invariant does not hold for every
reachable timeline. -/
theorem c2_indices_amended (subs : List SubRipItem) (cur : ℕ)
    (startStr endStr : String) :
    hasCanonicalIndices (update_indices subs)
    ∧ (cur < subs.length → hasCanonicalIndices (delete_subtitle subs cur))
    ∧ (edit_timing subs cur startStr endStr).map SubRipItem.index =
        subs.map SubRipItem.index := by
  refine ⟨update_indices_canonical subs, ?_,
    edit_timing_map_index subs cur startStr endStr⟩
  intro h
  unfold delete_subtitle
  rw [if_pos h]
  exact update_indices_canonical _

/-- Witness for C2 amended: deleting the only row of a one-row timeline. -/
theorem c2_indices_amended_witness :
    (0 : ℕ) < ([⟨3, ⟨0⟩, ⟨1⟩, "x"⟩] : List SubRipItem).length
    ∧ hasCanonicalIndices (delete_subtitle [⟨3, ⟨0⟩, ⟨1⟩, "x"⟩] 0) :=
  ⟨by norm_num,
    (c2_indices_amended [⟨3, ⟨0⟩, ⟨1⟩, "x"⟩] 0 "" "").2.1 (by norm_num)⟩

/-- Claim C3, evaluated at the failing input: segment 0..1000 ms with text
"ab cd" split at cursor offset 2 gives splitMs = 0 + 1000·2/5 = 400; the
first part is 0..400 "ab" as claimed, but the second part is 400..400 "cd":
its end is the split time, not the original end 1000, because the source
overwrites `current_sub.end` before reading it for the new item. -/
theorem c3_split_second_part_end :
    editor_split_subtitle [⟨1, ⟨0⟩, ⟨1000⟩, "ab cd"⟩] 0 2 =
      [⟨1, ⟨0⟩, ⟨400⟩, "ab"⟩, ⟨2, ⟨400⟩, ⟨400⟩, "cd"⟩]
    ∧ (⟨2, ⟨400⟩, ⟨400⟩, "cd"⟩ : SubRipItem).stop.ordinal ≠ 1000 := by
  refine ⟨by decide, by decide⟩

/-- Claim C8, evaluated at the failing inputs: with a selected last segment
8000..10000 ms, the inserted segment runs 10000..5000 (absolute
00:00:05.000, not start + 5000 = 15000, and end < start); with a following
segment present the handler raises `AttributeError` (the overlap check reads
the non-existent `next_sub.seconds`); and on an empty timeline nothing is
added (a warning is shown), not a sole new segment. -/
theorem c8_add_subtitle_end :
    add_subtitle [⟨1, ⟨8000⟩, ⟨10000⟩, "x"⟩] (some 0) =
      Except.ok [⟨1, ⟨8000⟩, ⟨10000⟩, "x"⟩, ⟨2, ⟨10000⟩, ⟨5000⟩, ""⟩]
    ∧ add_subtitle [⟨1, ⟨8000⟩, ⟨10000⟩, "x"⟩, ⟨2, ⟨20000⟩, ⟨21000⟩, "y"⟩]
        (some 0) =
      Except.error "AttributeError: SubRipItem object has no attribute seconds"
    ∧ add_subtitle ([] : List SubRipItem) none = Except.ok [] := by
  refine ⟨rfl, rfl, rfl⟩

end AutodubPro

